import Mathlib

/-!
Shallow embedding of `src/core/segment_meta.rs` (tantivy): the `SegmentMeta`
metadata entity, its derived operations, and the process-wide live registry
(`census::Inventory`) it registers into.

Machine integers (`u32`, `u64`) are modelled as `Nat`; the only arithmetic
operation in the source, `max_doc() - num_deleted_docs()`, is stated under the
caller contract `num_deleted_docs ≤ max_doc`, under which `Nat` subtraction
coincides with exact unsigned subtraction.  `PathBuf` is modelled as `String`
(the source builds each path as a single string and wraps it), and
`HashSet<PathBuf>` as `Finset String`.
-/

namespace SegmentMetaSpec

/-- Modelled from the spec: `SegmentId` (declared in `core::SegmentId`, not part
of the provided source) is an externally supplied opaque unique identifier,
effectively a UUID, whose `uuid_string()` method returns its string form. -/
structure SegmentId where
  uuid_string : String
deriving DecidableEq, Repr

/-- Modelled from the spec: `SegmentComponent` (declared elsewhere in the
repository) is a fixed, caller-defined enumeration of the seven segment
components: positions, postings, terms, store, fast-fields, field-norms,
delete-bitmap. -/
inductive SegmentComponent where
  | POSITIONS
  | POSTINGS
  | TERMS
  | STORE
  | FASTFIELDS
  | FIELDNORMS
  | DELETE
deriving DecidableEq, Repr

/-- Modelled from the spec: `SegmentComponent::iterator()` enumerates the seven
fixed components, one of each. -/
def SegmentComponent.iterator : List SegmentComponent :=
  [.POSITIONS, .POSTINGS, .TERMS, .STORE, .FASTFIELDS, .FIELDNORMS, .DELETE]

/-- `DeleteMeta` from the source: `{ num_deleted_docs: u32, opstamp: u64 }`. -/
structure DeleteMeta where
  num_deleted_docs : Nat
  opstamp : Nat
deriving DecidableEq, Repr

/-- `InnerSegmentMeta` from the source:
`{ segment_id: SegmentId, max_doc: u32, deletes: Option<DeleteMeta> }`. -/
structure InnerSegmentMeta where
  segment_id : SegmentId
  max_doc : Nat
  deletes : Option DeleteMeta
deriving DecidableEq, Repr

/-- `InnerSegmentMeta::new`: fresh record with `max_doc = 0` and no deletes. -/
def InnerSegmentMeta.new (segment_id : SegmentId) : InnerSegmentMeta :=
  { segment_id := segment_id, max_doc := 0, deletes := none }

/-- Modelled from the spec: the `census::Inventory` live registry (an external
crate, not part of the provided source).  Entries are records paired with a
unique handle id; `track` registers a record and hands out a fresh handle id,
dropping the last handle for an entry removes it, and `list` snapshots the
currently registered records. -/
structure Inventory where
  nextId : Nat
  items : List (Nat × InnerSegmentMeta)
deriving DecidableEq, Repr

/-- Modelled from the spec: the registry starts empty. -/
def Inventory.empty : Inventory := { nextId := 0, items := [] }

/-- Modelled from the spec: `Inventory::track` registers a newly constructed
record and returns a fresh handle (here: its unique id). -/
def Inventory.track (inv : Inventory) (r : InnerSegmentMeta) : Inventory × Nat :=
  ({ nextId := inv.nextId + 1, items := inv.items ++ [(inv.nextId, r)] }, inv.nextId)

/-- Modelled from the spec: implicit deregistration when the last strong
reference to a tracked record is dropped removes its entry. -/
def Inventory.dropHandle (inv : Inventory) (id : Nat) : Inventory :=
  { nextId := inv.nextId, items := inv.items.filter (fun p => p.1 != id) }

/-- Modelled from the spec: `Inventory::list` returns a snapshot of every
currently registered record. -/
def Inventory.list (inv : Inventory) : List InnerSegmentMeta :=
  inv.items.map Prod.snd

/-- `SegmentMeta` from the source: a registry-tracked handle wrapping one
`InnerSegmentMeta`.  The `TrackedObject` wrapper is modelled by remembering the
handle id that `track` issued together with the wrapped record. -/
structure SegmentMeta where
  handleId : Nat
  inner : InnerSegmentMeta
deriving DecidableEq, Repr

namespace SegmentMeta

/-- `SegmentMeta::all`: snapshot of all living `SegmentMeta` objects, by
delegating to the registry's `list`.  The registry being process-global state
in the source, it is passed explicitly here. -/
def all (inv : Inventory) : List SegmentMeta :=
  inv.items.map (fun p => { handleId := p.1, inner := p.2 })

/-- `SegmentMeta::new`: creates the metadata for a segment with no deletes and
no documents, and registers it (`INVENTORY.track`). -/
def new (segment_id : SegmentId) (inv : Inventory) : Inventory × SegmentMeta :=
  let inner := InnerSegmentMeta.new segment_id
  let tracked := inv.track inner
  (tracked.1, { handleId := tracked.2, inner := inner })

/-- `SegmentMeta::id`. -/
def id (m : SegmentMeta) : SegmentId :=
  m.inner.segment_id

/-- `SegmentMeta::num_deleted_docs`:
`self.inner.deletes.as_ref().map(|d| d.num_deleted_docs).unwrap_or(0)`. -/
def num_deleted_docs (m : SegmentMeta) : Nat :=
  (m.inner.deletes.map (fun d => d.num_deleted_docs)).getD 0

/-- `SegmentMeta::max_doc`. -/
def max_doc (m : SegmentMeta) : Nat :=
  m.inner.max_doc

/-- `SegmentMeta::num_docs`: `self.max_doc() - self.num_deleted_docs()`
(unsigned subtraction; meaningful under the caller contract
`num_deleted_docs ≤ max_doc`). -/
def num_docs (m : SegmentMeta) : Nat :=
  m.max_doc - m.num_deleted_docs

/-- `SegmentMeta::delete_opstamp`:
`self.inner.deletes.as_ref().map(|d| d.opstamp)`. -/
def delete_opstamp (m : SegmentMeta) : Option Nat :=
  m.inner.deletes.map (fun d => d.opstamp)

/-- `SegmentMeta::has_deletes`: `self.num_deleted_docs() > 0`. -/
def has_deletes (m : SegmentMeta) : Bool :=
  decide (m.num_deleted_docs > 0)

/-- `SegmentMeta::relative_path`: the segment id's uuid string followed by the
per-component suffix; the `DELETE` suffix is
`format!(".{}.del", self.delete_opstamp().unwrap_or(0))`. -/
def relative_path (m : SegmentMeta) (component : SegmentComponent) : String :=
  m.id.uuid_string ++
    (match component with
      | .POSITIONS => ".pos"
      | .POSTINGS => ".idx"
      | .TERMS => ".term"
      | .STORE => ".store"
      | .FASTFIELDS => ".fast"
      | .FIELDNORMS => ".fieldnorm"
      | .DELETE => "." ++ toString (m.delete_opstamp.getD 0) ++ ".del")

/-- `SegmentMeta::list_files`: the set of `relative_path` results over
`SegmentComponent::iterator()`, collected into a `HashSet`. -/
def list_files (m : SegmentMeta) : Finset String :=
  (SegmentComponent.iterator.map m.relative_path).toFinset

/-- `SegmentMeta::with_max_doc`: consumes the handle and, via
`TrackedObject::map`, registers a brand-new record with the updated `max_doc`,
same `segment_id` and `deletes`, returning a new handle.  The implicit drop of
the consumed handle is a separate event (`Inventory.dropHandle`) modelling
Rust's scope-exit drop. -/
def with_max_doc (m : SegmentMeta) (new_max_doc : Nat) (inv : Inventory) :
    Inventory × SegmentMeta :=
  let newInner : InnerSegmentMeta :=
    { segment_id := m.inner.segment_id, max_doc := new_max_doc, deletes := m.inner.deletes }
  let tracked := inv.track newInner
  (tracked.1, { handleId := tracked.2, inner := newInner })

/-- `SegmentMeta::with_delete_meta`: consumes the handle and registers a
brand-new record whose delete metadata is replaced wholesale by
`Some(DeleteMeta { num_deleted_docs, opstamp })`, same `segment_id` and
`max_doc`. -/
def with_delete_meta (m : SegmentMeta) (nd : Nat) (opstamp : Nat) (inv : Inventory) :
    Inventory × SegmentMeta :=
  let newInner : InnerSegmentMeta :=
    { segment_id := m.inner.segment_id, max_doc := m.inner.max_doc,
      deletes := some { num_deleted_docs := nd, opstamp := opstamp } }
  let tracked := inv.track newInner
  (tracked.1, { handleId := tracked.2, inner := newInner })

/-- Serialization of a `SegmentMeta` delegates to its inner record; modelled
from the spec, the externally persisted form is exactly `InnerSegmentMeta`'s
fields (the serde derive is generated code outside the provided source). -/
def serialize (m : SegmentMeta) : InnerSegmentMeta :=
  m.inner

/-- Deserialization from the source: deserialize an `InnerSegmentMeta` (the
persisted record, modelled from the spec as the record itself) and register it
as a fresh tracked instance (`INVENTORY.track`). -/
def deserialize (r : InnerSegmentMeta) (inv : Inventory) : Inventory × SegmentMeta :=
  let tracked := inv.track r
  (tracked.1, { handleId := tracked.2, inner := r })

end SegmentMeta

/-- Concrete sample data used by witness theorems. -/
def sampleId : SegmentId := { uuid_string := "0123456789abcdef" }

/-- Concrete sample metadata handle used by witness theorems. -/
def sampleMeta : SegmentMeta :=
  { handleId := 0,
    inner := { segment_id := sampleId, max_doc := 10,
               deletes := some { num_deleted_docs := 3, opstamp := 5 } } }

/-- C5: for every segment id, the handle returned by `new(segment_id)`
satisfies `max_doc() == 0`, `num_deleted_docs() == 0`, `has_deletes() == false`
and `delete_opstamp() == None`. -/
theorem new_segment_meta_defaults (sid : SegmentId) (inv : Inventory) :
    (SegmentMeta.new sid inv).2.max_doc = 0 ∧
    (SegmentMeta.new sid inv).2.num_deleted_docs = 0 ∧
    (SegmentMeta.new sid inv).2.has_deletes = false ∧
    (SegmentMeta.new sid inv).2.delete_opstamp = none :=
  ⟨rfl, rfl, rfl, rfl⟩

/-- C2: under the caller contract `num_deleted_docs() ≤ max_doc()`,
`num_docs()` equals `max_doc() - num_deleted_docs()` exactly (as integers:
no underflow). -/
theorem num_docs_eq_max_doc_sub_num_deleted (m : SegmentMeta)
    (h : m.num_deleted_docs ≤ m.max_doc) :
    (m.num_docs : ℤ) = (m.max_doc : ℤ) - (m.num_deleted_docs : ℤ) := by
  simp only [SegmentMeta.num_docs]
  omega

/-- Witness for C2 at a concrete handle with `max_doc = 10` and 3 deletions. -/
theorem num_docs_eq_max_doc_sub_num_deleted_witness :
    sampleMeta.num_deleted_docs ≤ sampleMeta.max_doc ∧
    (sampleMeta.num_docs : ℤ) =
      (sampleMeta.max_doc : ℤ) - (sampleMeta.num_deleted_docs : ℤ) :=
  ⟨by decide, num_docs_eq_max_doc_sub_num_deleted sampleMeta (by decide)⟩

/-- C8: `has_deletes()` is true iff `num_deleted_docs() > 0`. -/
theorem has_deletes_iff_num_deleted_pos (m : SegmentMeta) :
    m.has_deletes = true ↔ m.num_deleted_docs > 0 := by
  simp [SegmentMeta.has_deletes]

/-- C6: `with_max_doc(n)` yields a handle with `max_doc() == n`, unchanged
`id()`, `num_deleted_docs()` and `delete_opstamp()`; the existing registry
entries are untouched and the result's record is newly registered (appended
with a fresh handle id). -/
theorem with_max_doc_spec (m : SegmentMeta) (n : Nat) (inv : Inventory) :
    (m.with_max_doc n inv).2.max_doc = n ∧
    (m.with_max_doc n inv).2.id = m.id ∧
    (m.with_max_doc n inv).2.num_deleted_docs = m.num_deleted_docs ∧
    (m.with_max_doc n inv).2.delete_opstamp = m.delete_opstamp ∧
    (m.with_max_doc n inv).1.items =
      inv.items ++ [(inv.nextId, (m.with_max_doc n inv).2.inner)] :=
  ⟨rfl, rfl, rfl, rfl, rfl⟩

/-- C7: `with_delete_meta(d, o)` yields a handle with
`num_deleted_docs() == d` and `delete_opstamp() == Some(o)` (the delete
metadata replaced wholesale), unchanged `id()` and `max_doc()`; existing
registry entries are untouched and the result's record is newly registered. -/
theorem with_delete_meta_spec (m : SegmentMeta) (d o : Nat) (inv : Inventory) :
    (m.with_delete_meta d o inv).2.num_deleted_docs = d ∧
    (m.with_delete_meta d o inv).2.delete_opstamp = some o ∧
    (m.with_delete_meta d o inv).2.id = m.id ∧
    (m.with_delete_meta d o inv).2.max_doc = m.max_doc ∧
    (m.with_delete_meta d o inv).2.inner.deletes =
      some { num_deleted_docs := d, opstamp := o } ∧
    (m.with_delete_meta d o inv).1.items =
      inv.items ++ [(inv.nextId, (m.with_delete_meta d o inv).2.inner)] :=
  ⟨rfl, rfl, rfl, rfl, rfl, rfl⟩

/-- C9: `with_max_doc(n)` leaves `list_files()` unchanged: no relative path
depends on `max_doc`. -/
theorem with_max_doc_preserves_list_files (m : SegmentMeta) (n : Nat)
    (inv : Inventory) :
    (m.with_max_doc n inv).2.list_files = m.list_files :=
  rfl

/-- C10: `with_delete_meta(0, o)` yields a handle with `has_deletes() == false`
yet `delete_opstamp() == Some(o)`, and its delete-bitmap path still embeds the
opstamp as `.{o}.del`. -/
theorem with_delete_meta_zero_has_deletes_false (m : SegmentMeta) (o : Nat)
    (inv : Inventory) :
    (m.with_delete_meta 0 o inv).2.has_deletes = false ∧
    (m.with_delete_meta 0 o inv).2.delete_opstamp = some o ∧
    (m.with_delete_meta 0 o inv).2.relative_path .DELETE =
      (m.with_delete_meta 0 o inv).2.id.uuid_string ++
        ("." ++ toString o ++ ".del") :=
  ⟨rfl, rfl, rfl⟩

/-- C4: serializing then deserializing yields a handle with identical `id()`,
`max_doc()`, `num_deleted_docs()` and `delete_opstamp()`, registered in the
live registry as a fresh tracked instance. -/
theorem serialize_deserialize_round_trip (m : SegmentMeta) (inv : Inventory) :
    (SegmentMeta.deserialize m.serialize inv).2.id = m.id ∧
    (SegmentMeta.deserialize m.serialize inv).2.max_doc = m.max_doc ∧
    (SegmentMeta.deserialize m.serialize inv).2.num_deleted_docs =
      m.num_deleted_docs ∧
    (SegmentMeta.deserialize m.serialize inv).2.delete_opstamp =
      m.delete_opstamp ∧
    (SegmentMeta.deserialize m.serialize inv).1.items =
      inv.items ++ [(inv.nextId, m.serialize)] :=
  ⟨rfl, rfl, rfl, rfl, rfl⟩

/-- Appending to a fixed string on the left is injective. -/
theorem string_append_left_injective (s : String) :
    Function.Injective (fun t => s ++ t) := by
  intro a b h
  have hd := congrArg String.data h
  simp only [String.data_append] at hd
  exact String.ext (List.append_cancel_left hd)

/-- The delete-bitmap suffix `.{o}.del` always ends in the character `l`. -/
theorem delete_suffix_getLast (o : Nat) :
    ("." ++ toString o ++ ".del").data.getLast? = some 'l' := by
  rw [show ("." ++ toString o ++ ".del").data =
        (".".data ++ (toString o).data) ++ ('.' :: ['d', 'e', 'l']) by
      rw [String.data_append, String.data_append]]
  rw [List.getLast?_append_cons]
  decide

/-- No string whose last character is not `l` equals the delete suffix. -/
theorem delete_suffix_ne (o : Nat) (s : String)
    (h : s.data.getLast? ≠ some 'l') : s ≠ "." ++ toString o ++ ".del" := by
  intro he
  exact h (he ▸ delete_suffix_getLast o)

/-- The seven per-component suffixes are pairwise distinct, whatever the
delete opstamp. -/
theorem suffixes_nodup (o : Nat) :
    ([".pos", ".idx", ".term", ".store", ".fast", ".fieldnorm",
      "." ++ toString o ++ ".del"] : List String).Nodup := by
  have key : ∀ s ∈ ([".pos", ".idx", ".term", ".store", ".fast",
      ".fieldnorm"] : List String), s ≠ "." ++ toString o ++ ".del" := by
    intro s hs
    fin_cases hs <;> exact delete_suffix_ne o _ (by decide)
  have happ : (([".pos", ".idx", ".term", ".store", ".fast",
      ".fieldnorm"] : List String) ++ ["." ++ toString o ++ ".del"]).Nodup := by
    rw [List.nodup_append]
    refine ⟨by decide, List.nodup_singleton _, ?_⟩
    intro s hs hmem
    rw [List.mem_singleton] at hmem
    exact key s hs hmem
  exact happ

/-- C3: `list_files()` is exactly the set of `relative_path(c)` over the seven
fixed components, has cardinality exactly 7, and each path is the segment id's
string form followed by the fixed per-component suffix — the delete component's
suffix embedding `delete_opstamp().unwrap_or(0)` as `.{opstamp}.del`. -/
theorem list_files_card_seven (m : SegmentMeta) :
    m.list_files = (SegmentComponent.iterator.map m.relative_path).toFinset ∧
    m.list_files.card = 7 ∧
    m.relative_path .POSITIONS = m.id.uuid_string ++ ".pos" ∧
    m.relative_path .POSTINGS = m.id.uuid_string ++ ".idx" ∧
    m.relative_path .TERMS = m.id.uuid_string ++ ".term" ∧
    m.relative_path .STORE = m.id.uuid_string ++ ".store" ∧
    m.relative_path .FASTFIELDS = m.id.uuid_string ++ ".fast" ∧
    m.relative_path .FIELDNORMS = m.id.uuid_string ++ ".fieldnorm" ∧
    m.relative_path .DELETE =
      m.id.uuid_string ++ ("." ++ toString (m.delete_opstamp.getD 0) ++ ".del") := by
  refine ⟨rfl, ?_, rfl, rfl, rfl, rfl, rfl, rfl, rfl⟩
  have hmap : SegmentComponent.iterator.map m.relative_path =
      ([".pos", ".idx", ".term", ".store", ".fast", ".fieldnorm",
        "." ++ toString (m.delete_opstamp.getD 0) ++ ".del"] : List String).map
        (fun sfx => m.id.uuid_string ++ sfx) := rfl
  have hnodup : (SegmentComponent.iterator.map m.relative_path).Nodup := by
    rw [hmap]
    exact (suffixes_nodup (m.delete_opstamp.getD 0)).map
      (string_append_left_injective m.id.uuid_string)
  exact (List.toFinset_card_of_nodup hnodup).trans rfl

/-- Modelled from the spec: one registry-affecting event of a trace — creating
a `SegmentMeta` handle (via `new`, deserialization or evolution, each of which
calls `track`) or dropping the last strong reference to one (which removes its
entry).  An interleaving of threads is one such sequence of events. -/
inductive RegistryEvent where
  | create (r : InnerSegmentMeta)
  | dropLast (id : Nat)
deriving DecidableEq, Repr

/-- Execution of a trace of registry events against an inventory state. -/
def runEvents : Inventory → List RegistryEvent → Inventory
  | inv, [] => inv
  | inv, RegistryEvent.create r :: rest => runEvents (inv.track r).1 rest
  | inv, RegistryEvent.dropLast i :: rest => runEvents (inv.dropHandle i) rest

/-- Validity of a trace: every drop targets a currently live handle (a drop of
a handle is the drop of its last strong reference, which exists). -/
def validEvents : Inventory → List RegistryEvent → Bool
  | _, [] => true
  | inv, RegistryEvent.create r :: rest => validEvents (inv.track r).1 rest
  | inv, RegistryEvent.dropLast i :: rest =>
      inv.items.any (fun p => p.1 == i) && validEvents (inv.dropHandle i) rest

/-- Number of handle creations in a trace (the `N` of the registry claim). -/
def countCreates : List RegistryEvent → Nat
  | [] => 0
  | RegistryEvent.create _ :: rest => countCreates rest + 1
  | RegistryEvent.dropLast _ :: rest => countCreates rest

/-- Number of handle drops in a trace (the `M` of the registry claim). -/
def countDrops : List RegistryEvent → Nat
  | [] => 0
  | RegistryEvent.create _ :: rest => countDrops rest
  | RegistryEvent.dropLast _ :: rest => countDrops rest + 1

/-- Well-formedness of an inventory: handle ids are pairwise distinct and all
below the next fresh id. -/
def Inventory.wf (inv : Inventory) : Prop :=
  (inv.items.map Prod.fst).Nodup ∧ ∀ p ∈ inv.items, p.1 < inv.nextId

/-- The empty registry is well formed. -/
theorem empty_wf : Inventory.empty.wf := by
  constructor
  · exact List.nodup_nil
  · intro p hp
    cases hp

/-- Tracking a record preserves well-formedness. -/
theorem track_wf (inv : Inventory) (r : InnerSegmentMeta) (h : inv.wf) :
    (inv.track r).1.wf := by
  obtain ⟨hnd, hlt⟩ := h
  constructor
  · rw [Inventory.track]
    simp only [List.map_append, List.map_cons, List.map_nil]
    rw [List.nodup_append]
    refine ⟨hnd, List.nodup_singleton _, ?_⟩
    intro a ha hmem
    rw [List.mem_singleton] at hmem
    subst hmem
    obtain ⟨p, hp, hfst⟩ := List.mem_map.mp ha
    exact absurd (hfst ▸ hlt p hp) (lt_irrefl _)
  · intro p hp
    rw [Inventory.track] at hp
    simp only [List.mem_append, List.mem_singleton] at hp
    rcases hp with hp | hp
    · exact Nat.lt_succ_of_lt (hlt p hp)
    · subst hp
      exact Nat.lt_succ_self _

/-- Dropping a handle preserves well-formedness. -/
theorem dropHandle_wf (inv : Inventory) (i : Nat) (h : inv.wf) :
    (inv.dropHandle i).wf := by
  obtain ⟨hnd, hlt⟩ := h
  constructor
  · exact hnd.sublist ((List.filter_sublist inv.items).map Prod.fst)
  · intro p hp
    rw [Inventory.dropHandle] at hp
    exact hlt p (List.mem_of_mem_filter hp)

/-- Filtering out one live handle id from a list with pairwise-distinct ids
removes exactly one entry. -/
theorem filter_out_mem_length {i : Nat} :
    ∀ l : List (Nat × InnerSegmentMeta), (l.map Prod.fst).Nodup →
      (∃ r, (i, r) ∈ l) →
      (l.filter (fun p => p.1 != i)).length + 1 = l.length := by
  intro l
  induction l with
  | nil =>
    rintro _ ⟨r, hr⟩
    cases hr
  | cons a t ih =>
    rintro hnd ⟨r, hr⟩
    rw [List.map_cons, List.nodup_cons] at hnd
    obtain ⟨hnotin, hndt⟩ := hnd
    by_cases hai : a.1 = i
    · have hkeep : t.filter (fun p => p.1 != i) = t := by
        apply List.filter_eq_self.mpr
        intro p hp
        simp only [bne_iff_ne, ne_eq]
        intro hpi
        apply hnotin
        rw [hai, ← hpi]
        exact List.mem_map_of_mem Prod.fst hp
      simp [List.filter_cons, hai, hkeep]
    · have hrt : (i, r) ∈ t := by
        rcases List.mem_cons.mp hr with heq | hmem
        · exact absurd (congrArg Prod.fst heq.symm) hai
        · exact hmem
      have hlen := ih hndt ⟨r, hrt⟩
      simp [List.filter_cons, hai]
      omega

/-- Main registry invariant: along any valid trace, the live-entry count plus
the number of drops equals the starting count plus the number of creates. -/
theorem runEvents_length :
    ∀ (es : List RegistryEvent) (inv : Inventory), inv.wf →
      validEvents inv es = true →
      (runEvents inv es).items.length + countDrops es =
        inv.items.length + countCreates es := by
  intro es
  induction es with
  | nil =>
    intro inv _ _
    rfl
  | cons e rest ih =>
    intro inv hwf hv
    cases e with
    | create r =>
      have hv2 : validEvents (inv.track r).1 rest = true := hv
      have h := ih (inv.track r).1 (track_wf inv r hwf) hv2
      rw [runEvents, countDrops, countCreates]
      rw [h]
      rw [Inventory.track]
      simp only [List.length_append, List.length_cons, List.length_nil]
      omega
    | dropLast i =>
      rw [validEvents, Bool.and_eq_true] at hv
      obtain ⟨hlive, hv2⟩ := hv
      rw [List.any_eq_true] at hlive
      obtain ⟨p, hp, hpi⟩ := hlive
      have hpi' : p.1 = i := by
        simpa using hpi
      have hex : ∃ r, (i, r) ∈ inv.items := ⟨p.2, by rw [← hpi']; exact hp⟩
      have hdroplen :
          ((inv.dropHandle i).items).length + 1 = inv.items.length :=
        filter_out_mem_length inv.items hwf.1 hex
      have h := ih (inv.dropHandle i) (dropHandle_wf inv i hwf) hv2
      rw [runEvents, countDrops, countCreates]
      omega

/-- C1: for every valid sequence of operations that creates `N` handles (via
`new`, deserialization or evolution) and drops `M` of them, starting from the
empty registry, `M ≤ N` and the snapshot `SegmentMeta::all()` has length
exactly `N - M`. -/
theorem registry_trace_count (es : List RegistryEvent)
    (hv : validEvents Inventory.empty es = true) :
    countDrops es ≤ countCreates es ∧
    (SegmentMeta.all (runEvents Inventory.empty es)).length =
      countCreates es - countDrops es := by
  have h := runEvents_length es Inventory.empty empty_wf hv
  have hlen : (SegmentMeta.all (runEvents Inventory.empty es)).length =
      (runEvents Inventory.empty es).items.length := List.length_map _ _
  rw [show Inventory.empty.items.length = 0 from rfl, Nat.zero_add] at h
  exact ⟨by omega, by omega⟩

/-- Witness for C1: a concrete trace with two creations and one drop, whose
final snapshot has length 2 - 1 = 1. -/
theorem registry_trace_count_witness :
    validEvents Inventory.empty
      [RegistryEvent.create sampleMeta.inner,
       RegistryEvent.create (InnerSegmentMeta.new sampleId),
       RegistryEvent.dropLast 0] = true ∧
    (countDrops [RegistryEvent.create sampleMeta.inner,
       RegistryEvent.create (InnerSegmentMeta.new sampleId),
       RegistryEvent.dropLast 0] ≤
     countCreates [RegistryEvent.create sampleMeta.inner,
       RegistryEvent.create (InnerSegmentMeta.new sampleId),
       RegistryEvent.dropLast 0] ∧
    (SegmentMeta.all (runEvents Inventory.empty
       [RegistryEvent.create sampleMeta.inner,
        RegistryEvent.create (InnerSegmentMeta.new sampleId),
        RegistryEvent.dropLast 0])).length =
      countCreates [RegistryEvent.create sampleMeta.inner,
        RegistryEvent.create (InnerSegmentMeta.new sampleId),
        RegistryEvent.dropLast 0] -
      countDrops [RegistryEvent.create sampleMeta.inner,
        RegistryEvent.create (InnerSegmentMeta.new sampleId),
        RegistryEvent.dropLast 0]) :=
  ⟨by decide, registry_trace_count _ (by decide)⟩

end SegmentMetaSpec
